import Mathlib

/-!
# cvmfs-gateway: the lease services facade and its lease store

A shallow embedding of `internal/gateway/backend/backend.go` (the `Services`
facade: `NewLease`, `GetLeases`, `GetLease`, `CancelLease`) together with the
collaborators the facade calls.

* The facade functions are translated from the Go source, statement by
  statement.  Go's `(value, error)` results are kept as they are returned:
  `NewLease` yields the pair of its string and its error, the other operations an
  `Except`.
* The collaborators whose code is not part of the translated sources (the
  `LeaseDB` interface, `AccessConfig.Check`, `SplitLeasePath`, `NewLeaseToken`,
  `CheckToken`) are parameters of the facade.  Operations with an effect thread
  an explicit state: `σ` is the state behind the `LeaseDB` interface, `ρ` is the
  ambient state (clock, entropy source, access registry) that the token service
  and the access check work on.  Since both are arbitrary, a facade result whose
  state component is the initial state was produced without invoking any
  operation on that state.
* The embedded lease store, the path utilities, the access registry and the
  token service are modelled from the specification; every such definition says
  so in its doc comment.  The token service is idealised: a token validates
  under a secret exactly when it was minted with that secret and the clock has
  not reached its expiration.
-/

namespace Gateway

/-! ## Data model -/

/-- Byte strings (Go `[]byte`). -/
abbrev Bytes := List Nat

/-- Instants and durations, in nanoseconds (Go `time.Time`, `time.Duration`). -/
abbrev Time := Int

/-- Error values.  The kinds are those of the error taxonomy; `wrapped` is the
value built by `errors.Wrap` of `github.com/pkg/errors`: a new error that
annotates its cause with a message. -/
inductive Error where
  | MalformedPath
  | UnknownRepo
  | UnauthorizedKey
  | SubpathOutsideAllowed
  | PathBusy (existing : String)
  | InvalidToken
  | ExpiredToken
  | NotFound
  | StoreUnavailable
  | Internal
  | wrapped (cause : Error) (message : String)
  deriving DecidableEq, Repr

/-- The call `errors.Wrap(err, message)` on a non-nil `err`. -/
def errors.Wrap (err : Error) (message : String) : Error :=
  Error.wrapped err message

/-- The call `errors.Cause(err)`: the innermost error under the wrappers. -/
def errors.Cause : Error → Error
  | Error.wrapped cause _ => errors.Cause cause
  | err => err

/-- The type test `err.(PathBusyError)`, as `TestEmbeddedLeaseDBConflicts` makes
it: it looks at the value itself, not at its cause. -/
def Error.isPathBusy : Error → Bool
  | Error.PathBusy _ => true
  | _ => false

/-- The token of a lease: the string handed to the client, the secret kept by
the server, and the expiration instant (fields used by `backend.go` and the
tests). -/
structure LeaseToken where
  TokenStr : String
  Secret : Bytes
  Expiration : Time
  deriving DecidableEq, Repr

/-- The persisted lease record. -/
structure Lease where
  KeyID : String
  Token : LeaseToken
  deriving DecidableEq, Repr

/-- The payload a token carries, returned by a successful `CheckToken`. -/
structure Payload where
  Path : String
  Expiration : Time
  Nonce : Bytes
  deriving DecidableEq, Repr

/-- The type `LeaseReturn` of `backend.go`: the response of lease queries.  An
omitted field of a Go struct literal is the empty string. -/
structure LeaseReturn where
  KeyID : String := ""
  LeasePath : String := ""
  TokenStr : String := ""
  Expires : String := ""
  deriving DecidableEq, Repr

/-- The part of `gw.Config` the facade reads. -/
structure Config where
  MaxLeaseTime : Int
  deriving DecidableEq, Repr

/-- Go's `int64` wrap-around. -/
def wrapInt64 (x : Int) : Int :=
  (x + 9223372036854775808) % 18446744073709551616 - 9223372036854775808

/-- The expression `time.Duration(n) * time.Second`. -/
def durationSeconds (n : Int) : Int :=
  wrapInt64 (n * 1000000000)

/-! ## Go maps with string keys -/

/-- A Go `map[string]α`: a finite list of entries with pairwise distinct keys.
The order of `entries` is the order in which `range` visits them. -/
structure GoMap (α : Type) where
  entries : List (String × α)
  nodup : (entries.map Prod.fst).Nodup

namespace GoMap

variable {α : Type}

/-- The call `make(map[string]α)`. -/
def empty : GoMap α :=
  ⟨[], List.nodup_nil⟩

/-- The lookup `m[k]` with its presence flag. -/
def get (m : GoMap α) (k : String) : Option α :=
  (m.entries.find? (fun e => decide (e.1 = k))).map Prod.snd

/-- The call `delete(m, k)`. -/
def delete (m : GoMap α) (k : String) : GoMap α :=
  ⟨m.entries.filter (fun e => decide (e.1 ≠ k)),
    m.nodup.sublist ((List.filter_sublist _).map Prod.fst)⟩

/-- The assignment `m[k] = v`. -/
def set (m : GoMap α) (k : String) (v : α) : GoMap α :=
  ⟨m.entries.filter (fun e => decide (e.1 ≠ k)) ++ [(k, v)], by
    rw [List.map_append, List.nodup_append]
    refine ⟨m.nodup.sublist ((List.filter_sublist _).map Prod.fst), by simp, ?_⟩
    intro a ha hb
    simp only [List.map_cons, List.map_nil, List.mem_singleton] at hb
    subst hb
    simp [List.mem_map, List.mem_filter] at ha⟩

/-- Keep the entries that satisfy `p`. -/
def retain (m : GoMap α) (p : String × α → Bool) : GoMap α :=
  ⟨m.entries.filter p, m.nodup.sublist ((List.filter_sublist _).map Prod.fst)⟩

/-- The call `len(m)`. -/
def len (m : GoMap α) : Nat :=
  m.entries.length

end GoMap

/-! ## Collaborators of the facade -/

/-- The package-level functions of `backend` that the facade calls and whose
code is outside the translated sources.  `NewLeaseToken` draws randomness and
reads the clock, so it transforms the ambient state; `CheckToken` only reads
it; `SplitLeasePath` is a pure function; `timeString` is `time.Time.String`. -/
structure Package (ρ : Type) where
  SplitLeasePath : String → Except Error (String × String)
  NewLeaseToken : String → Int → ρ → Except Error LeaseToken × ρ
  CheckToken : String → Bytes → ρ → Except Error Payload
  timeString : Time → String

/-- The type `AccessConfig`, seen through its method
`Check(keyID, subPath, repoName)`; `none` is the nil error. -/
structure AccessConfig (ρ : Type) where
  Check : String → String → String → ρ → Option Error × ρ

/-- The interface `LeaseDB` over a store state `σ`.  The three queries read the
state; the other operations return the state they leave behind together with
their error (`none` is nil). -/
structure LeaseDB (σ : Type) where
  NewLease : String → String → LeaseToken → σ → Option Error × σ
  GetLeases : σ → Except Error (GoMap Lease)
  GetLeaseForPath : String → σ → Except Error Lease
  GetLeaseForToken : String → σ → Except Error (String × Lease)
  CancelLeaseForPath : String → σ → Option Error × σ
  CancelLeaseForToken : String → σ → Option Error × σ
  CancelLeases : σ → Option Error × σ
  Close : σ → Option Error × σ

/-- The type `Services` of `backend.go`. -/
structure Services (σ ρ : Type) where
  Access : AccessConfig ρ
  Leases : LeaseDB σ
  Config : Config

/-! ## The facade (`backend.go`) -/

namespace Services

variable {σ ρ : Type}

/-- The method `Services.Close`. -/
def Close (s : Services σ ρ) (st : σ) : Option Error × σ :=
  match s.Leases.Close st with
  | (some err, st1) => (some (errors.Wrap err "could not close lease database"), st1)
  | (none, st1) => (none, st1)

/-- The method `Services.NewLease`: the returned pair, the ambient state and
the store state after the call. -/
def NewLease (pkg : Package ρ) (s : Services σ ρ) (keyID leasePath : String)
    (r : ρ) (st : σ) : (String × Option Error) × ρ × σ :=
  match pkg.SplitLeasePath leasePath with
  | Except.error err =>
    (("", some (errors.Wrap err "could not parse lease path")), r, st)
  | Except.ok (repoName, subPath) =>
    match s.Access.Check keyID subPath repoName r with
    | (some err, r1) => (("", some err), r1, st)
    | (none, r1) =>
      match pkg.NewLeaseToken leasePath (durationSeconds s.Config.MaxLeaseTime) r1 with
      | (Except.error err, r2) =>
        (("", some (errors.Wrap err "could not generate session token")), r2, st)
      | (Except.ok token, r2) =>
        match s.Leases.NewLease keyID leasePath token st with
        | (some err, st1) => (("", some err), r2, st1)
        | (none, st1) => ((token.TokenStr, none), r2, st1)

/-- The body of the `range` loop of `Services.GetLeases`. -/
def getLeasesStep (pkg : Package ρ) (r : ρ) (ret : GoMap LeaseReturn)
    (kv : String × Lease) : GoMap LeaseReturn :=
  match pkg.CheckToken kv.2.Token.TokenStr kv.2.Token.Secret r with
  | Except.ok _ =>
    ret.set kv.1
      { KeyID := kv.2.KeyID, TokenStr := kv.2.Token.TokenStr,
        Expires := pkg.timeString kv.2.Token.Expiration }
  | Except.error _ => ret

/-- The method `Services.GetLeases`. -/
def GetLeases (pkg : Package ρ) (s : Services σ ρ) (r : ρ) (st : σ) :
    Except Error (GoMap LeaseReturn) :=
  match s.Leases.GetLeases st with
  | Except.error err => Except.error err
  | Except.ok leases =>
    Except.ok (leases.entries.foldl (getLeasesStep pkg r) GoMap.empty)

/-- The method `Services.GetLease`: its result and the store state after the
call. -/
def GetLease (pkg : Package ρ) (s : Services σ ρ) (tokenStr : String)
    (r : ρ) (st : σ) : Except Error LeaseReturn × σ :=
  match s.Leases.GetLeaseForToken tokenStr st with
  | Except.error err => (Except.error err, st)
  | Except.ok (leasePath, lease) =>
    match pkg.CheckToken tokenStr lease.Token.Secret r with
    | Except.error err => (Except.error err, st)
    | Except.ok _ =>
      (Except.ok
        { KeyID := lease.KeyID, LeasePath := leasePath,
          Expires := pkg.timeString lease.Token.Expiration }, st)

/-- The method `Services.CancelLease`: its error and the store state after the
call. -/
def CancelLease (pkg : Package ρ) (s : Services σ ρ) (tokenStr : String)
    (r : ρ) (st : σ) : Option Error × σ :=
  match s.Leases.GetLeaseForToken tokenStr st with
  | Except.error err => (some err, st)
  | Except.ok (_, lease) =>
    match pkg.CheckToken tokenStr lease.Token.Secret r with
    | Except.error err => (some err, st)
    | Except.ok _ =>
      match s.Leases.CancelLeaseForToken tokenStr st with
      | (some err, st1) => (some err, st1)
      | (none, st1) => (none, st1)

end Services

/-! ## Observing the calls a store receives -/

/-- One invocation of an operation that changes a store. -/
inductive StoreCall where
  | NewLease (keyID leasePath : String) (token : LeaseToken)
  | CancelLeaseForPath (leasePath : String)
  | CancelLeaseForToken (tokenStr : String)
  | CancelLeases
  | Close
  deriving DecidableEq, Repr

/-- A store that behaves as `db` and appends every invocation of a changing
operation to a log kept next to the state. -/
def LeaseDB.logged {σ : Type} (db : LeaseDB σ) : LeaseDB (σ × List StoreCall) where
  NewLease := fun keyID path token st =>
    ((db.NewLease keyID path token st.1).1,
      ((db.NewLease keyID path token st.1).2,
        st.2 ++ [StoreCall.NewLease keyID path token]))
  GetLeases := fun st => db.GetLeases st.1
  GetLeaseForPath := fun path st => db.GetLeaseForPath path st.1
  GetLeaseForToken := fun tokenStr st => db.GetLeaseForToken tokenStr st.1
  CancelLeaseForPath := fun path st =>
    ((db.CancelLeaseForPath path st.1).1,
      ((db.CancelLeaseForPath path st.1).2,
        st.2 ++ [StoreCall.CancelLeaseForPath path]))
  CancelLeaseForToken := fun tokenStr st =>
    ((db.CancelLeaseForToken tokenStr st.1).1,
      ((db.CancelLeaseForToken tokenStr st.1).2,
        st.2 ++ [StoreCall.CancelLeaseForToken tokenStr]))
  CancelLeases := fun st =>
    ((db.CancelLeases st.1).1, ((db.CancelLeases st.1).2, st.2 ++ [StoreCall.CancelLeases]))
  Close := fun st => ((db.Close st.1).1, ((db.Close st.1).2, st.2 ++ [StoreCall.Close]))

/-- The services `s` over the logging store. -/
def Services.logged {σ ρ : Type} (s : Services σ ρ) :
    Services (σ × List StoreCall) ρ where
  Access := s.Access
  Leases := s.Leases.logged
  Config := s.Config

/-! ## Path utilities -/

/-- Split a string at every slash. -/
def splitSlash : List Char → List (List Char)
  | [] => [[]]
  | c :: cs =>
    if c = '/' then [] :: splitSlash cs
    else
      match splitSlash cs with
      | [] => [[c]]
      | seg :: segs => (c :: seg) :: segs

/-- Join segments, each behind one slash. -/
def joinSlash : List (List Char) → List Char
  | [] => []
  | seg :: segs => '/' :: (seg ++ joinSlash segs)

/-- Modelled from the spec: the path utility `SplitLeasePath` is outside the
translated sources.  A lease path has the form `repository/subpath`: the
repository is the non-empty text before the first slash; the subpath is what
follows, normalised to one leading slash and no trailing slash (the root is
`/`).  A string that does not split this way is a `MalformedPath`. -/
def SplitLeasePath (leasePath : String) : Except Error (String × String) :=
  match splitSlash leasePath.data with
  | repo :: seg :: segs =>
    if repo = [] then Except.error Error.MalformedPath
    else
      match (seg :: segs).filter (fun x => decide (x ≠ [])) with
      | [] => Except.ok (String.mk repo, "/")
      | parts => Except.ok (String.mk repo, String.mk (joinSlash parts))
  | _ => Except.error Error.MalformedPath

/-- Modelled from the spec: the path utility `IsPrefix` is outside the
translated sources.  `a` is a prefix of `b` iff `a = b` or `b` begins with `a`
followed by a slash. -/
def IsPrefix (a b : String) : Bool :=
  decide (a = b) || (a.data ++ ['/']).isPrefixOf b.data

/-! ## The embedded lease store -/

/-- The state behind the embedded lease store: the persisted map from lease
path to lease, and the reading of the clock the store works with. -/
structure StoreState where
  leases : GoMap Lease
  clock : Time

/-- A lease is expired once the clock has reached its expiration. -/
def Lease.expired (l : Lease) (now : Time) : Bool :=
  decide (l.Token.Expiration ≤ now)

/-- Modelled from the spec: the conflict check of the embedded store's
`NewLease` is outside the translated sources.  The existing entries are
visited in turn, `m` being the map of the running transaction.  An entry of
another repository is skipped.  An entry of the same repository that has the
same subpath and is not expired fails the insertion with `PathBusy` of the
requested path; one whose subpath is a prefix of the requested one, or the
other way round, and is not expired fails it with `PathBusy` of the existing
path; an expired one is deleted. -/
def conflictScan (split : String → Except Error (String × String)) (now : Time)
    (path repo sub : String) :
    List (String × Lease) → GoMap Lease → Except Error (GoMap Lease)
  | [], m => Except.ok m
  | e :: rest, m =>
    match split e.1 with
    | Except.error _ => conflictScan split now path repo sub rest m
    | Except.ok (repo1, sub1) =>
      if repo1 ≠ repo then conflictScan split now path repo sub rest m
      else if sub1 = sub ∧ e.2.expired now = false then
        Except.error (Error.PathBusy path)
      else if (IsPrefix sub1 sub = true ∨ IsPrefix sub sub1 = true)
          ∧ e.2.expired now = false then
        Except.error (Error.PathBusy e.1)
      else if e.2.expired now = true then
        conflictScan split now path repo sub rest (m.delete e.1)
      else conflictScan split now path repo sub rest m

/-- Modelled from the spec: the embedded implementation of `LeaseDB` is outside
the translated sources.  It is the logical map of the store contract:
`NewLease` inserts iff the conflict check passes and leaves the store as it was
when the check fails; the queries read the map (the lookup by token scans for
the entry whose token string equals the argument) and fail with `NotFound`; a
cancellation deletes by key or by token string and reports `NotFound` when
there is nothing to delete. -/
def EmbeddedLeaseDB (split : String → Except Error (String × String)) :
    LeaseDB StoreState where
  NewLease := fun keyID path token st =>
    match split path with
    | Except.error err => (some err, st)
    | Except.ok (repo, sub) =>
      match conflictScan split st.clock path repo sub st.leases.entries st.leases with
      | Except.error err => (some err, st)
      | Except.ok m =>
        (none, { st with leases := m.set path { KeyID := keyID, Token := token } })
  GetLeases := fun st => Except.ok st.leases
  GetLeaseForPath := fun path st =>
    match st.leases.get path with
    | some l => Except.ok l
    | none => Except.error Error.NotFound
  GetLeaseForToken := fun tokenStr st =>
    match st.leases.entries.find? (fun e => decide (e.2.Token.TokenStr = tokenStr)) with
    | some e => Except.ok (e.1, e.2)
    | none => Except.error Error.NotFound
  CancelLeaseForPath := fun path st =>
    match st.leases.get path with
    | some _ => (none, { st with leases := st.leases.delete path })
    | none => (some Error.NotFound, st)
  CancelLeaseForToken := fun tokenStr st =>
    match st.leases.entries.find? (fun e => decide (e.2.Token.TokenStr = tokenStr)) with
    | some _ =>
      (none, { st with
        leases := st.leases.retain (fun e => decide (e.2.Token.TokenStr ≠ tokenStr)) })
    | none => (some Error.NotFound, st)
  CancelLeases := fun st => (none, { st with leases := GoMap.empty })
  Close := fun st => (none, st)

/-! ## The access registry -/

/-- The type `KeyPaths`: key identifier to allowed subpath prefix. -/
abbrev KeyPaths := List (String × String)

/-- Modelled from the spec: `AccessConfig.Check` is outside the translated
sources.  The check succeeds iff the repository is known, the key is listed
under it, and the key's allowed prefix is a prefix of the subpath. -/
def registryCheck (repos : List (String × KeyPaths)) (keyID subPath repoName : String) :
    Option Error :=
  match repos.find? (fun e => decide (e.1 = repoName)) with
  | none => some Error.UnknownRepo
  | some (_, keys) =>
    match keys.find? (fun e => decide (e.1 = keyID)) with
    | none => some Error.UnauthorizedKey
    | some (_, allowed) =>
      if IsPrefix allowed subPath then none else some Error.SubpathOutsideAllowed

/-- An access configuration that answers from a fixed registry and leaves the
ambient state alone. -/
def registryAccess {ρ : Type} (repos : List (String × KeyPaths)) : AccessConfig ρ where
  Check := fun keyID subPath repoName r => (registryCheck repos keyID subPath repoName, r)

/-! ## The token service -/

/-- The ambient state of the token service: the clock, the randomness still to
be drawn (wire string, secret and nonce of each coming token), and the tokens
minted so far. -/
structure Ambient where
  now : Time
  entropy : List (String × Bytes × Bytes)
  issued : List (LeaseToken × Payload)

/-- Modelled from the spec: `NewLeaseToken` is outside the translated sources.
A fresh secret and nonce are drawn, the expiration is the current time plus the
lifetime, and the token string is the wire encoding of payload and tag.  The
encoding and the MAC belong to external libraries: the service is idealised,
its wire strings come with the randomness and every minted token is recorded. -/
def idealNewLeaseToken (path : String) (lifetime : Int) (a : Ambient) :
    Except Error LeaseToken × Ambient :=
  match a.entropy with
  | [] => (Except.error Error.Internal, a)
  | (wire, secret, nonce) :: rest =>
    let token : LeaseToken :=
      { TokenStr := wire, Secret := secret, Expiration := a.now + lifetime }
    (Except.ok token,
      { a with
        entropy := rest,
        issued :=
          (token, { Path := path, Expiration := a.now + lifetime, Nonce := nonce })
            :: a.issued })

/-- Modelled from the spec: `CheckToken` is outside the translated sources.  A
token validates iff its MAC verifies under the given secret and the current
time is before the expiration.  Idealised: the MAC verifies exactly for a token
string that was minted with that secret. -/
def idealCheckToken (tokenStr : String) (secret : Bytes) (a : Ambient) :
    Except Error Payload :=
  match a.issued.find? (fun e => decide (e.1.TokenStr = tokenStr ∧ e.1.Secret = secret)) with
  | none => Except.error Error.InvalidToken
  | some (_, payload) =>
    if a.now < payload.Expiration then Except.ok payload
    else Except.error Error.ExpiredToken

/-- The package functions with the idealised token service, over a given path
utility and a given rendering of instants. -/
def idealPackage (split : String → Except Error (String × String))
    (render : Time → String) : Package Ambient where
  SplitLeasePath := split
  NewLeaseToken := idealNewLeaseToken
  CheckToken := idealCheckToken
  timeString := render

/-- The services over the embedded store, which splits paths with the same path
utility as the facade. -/
def embeddedServices {ρ : Type} (access : AccessConfig ρ)
    (split : String → Except Error (String × String)) (config : Config) :
    Services StoreState ρ where
  Access := access
  Leases := EmbeddedLeaseDB split
  Config := config

/-! ## Rendering of instants -/

/-- The decimal digits of `n`, padded with zeros on the left to `width`. -/
def padDigits (width n : Nat) : List Char :=
  List.replicate (width - (Nat.toDigits 10 n).length) '0' ++ Nat.toDigits 10 n

/-- Year, month and day of the day number `z`, counted from 1970-01-01. -/
def civilFromDays (z : Nat) : Nat × Nat × Nat :=
  let shifted := z + 719468
  let era := shifted / 146097
  let doe := shifted % 146097
  let yoe := (doe - doe / 1460 + doe / 36524 - doe / 146096) / 365
  let doy := doe - (365 * yoe + yoe / 4 - yoe / 100)
  let mp := (5 * doy + 2) / 153
  let day := doy - (153 * mp + 2) / 5 + 1
  let month := if mp < 10 then mp + 3 else mp - 9
  let year := if month ≤ 2 then yoe + era * 400 + 1 else yoe + era * 400
  (year, month, day)

/-- Drop the zeros at the end of a list of digits. -/
def dropTrailingZeros (digits : List Char) : List Char :=
  (digits.reverse.dropWhile (fun c => c == '0')).reverse

/-- The method `time.Time.String` of Go's standard library for an instant in
UTC that carries no monotonic clock reading, in the layout
`2006-01-02 15:04:05.999999999 -0700 MST`.  The instant is a count of
nanoseconds from 1970-01-01 00:00:00 UTC; an instant before that is rendered
as that one. -/
def timeStringUTC (t : Time) : String :=
  let total := t.toNat
  let nanos := total % 1000000000
  let secs := total / 1000000000
  let date := civilFromDays (secs / 86400)
  let sod := secs % 86400
  let fraction :=
    if nanos = 0 then [] else '.' :: dropTrailingZeros (padDigits 9 nanos)
  String.mk
    (padDigits 4 date.1 ++ '-' :: padDigits 2 date.2.1 ++ '-' :: padDigits 2 date.2.2
      ++ ' ' :: padDigits 2 (sod / 3600) ++ ':' :: padDigits 2 (sod % 3600 / 60)
      ++ ':' :: padDigits 2 (sod % 60) ++ fraction ++ " +0000 UTC".data)

/-! ## Concrete services for evaluation -/

/-- The package functions used for evaluation: the path utility, the idealised
token service and the rendering of instants in UTC. -/
def demoPackage : Package Ambient :=
  idealPackage SplitLeasePath timeStringUTC

/-- The services used for evaluation: one repository with two keys, the
embedded store, and the lease time of the store tests (100 seconds). -/
def demoServices : Services StoreState Ambient :=
  embeddedServices
    (registryAccess
      [("test.repo.org", [("key1", "/path"), ("key2", "/restricted/to/subdir")])])
    SplitLeasePath { MaxLeaseTime := 100 }

/-- An empty store at time zero. -/
def emptyStore : StoreState :=
  { leases := GoMap.empty, clock := 0 }

/-- A secret of 32 bytes. -/
def demoSecret1 : Bytes :=
  [1, 2, 3, 4, 5, 6, 7, 8, 9, 10, 11, 12, 13, 14, 15, 16,
   17, 18, 19, 20, 21, 22, 23, 24, 25, 26, 27, 28, 29, 30, 31, 32]

/-- A second secret of 32 bytes. -/
def demoSecret2 : Bytes :=
  [33, 34, 35, 36, 37, 38, 39, 40, 41, 42, 43, 44, 45, 46, 47, 48,
   49, 50, 51, 52, 53, 54, 55, 56, 57, 58, 59, 60, 61, 62, 63, 64]

/-- A third secret of 32 bytes. -/
def demoSecret3 : Bytes :=
  [65, 66, 67, 68, 69, 70, 71, 72, 73, 74, 75, 76, 77, 78, 79, 80,
   81, 82, 83, 84, 85, 86, 87, 88, 89, 90, 91, 92, 93, 94, 95, 96]

/-- The token string for `test.repo.org/path/one`, expiring 100 seconds after
time zero, with the nonce 101, ..., 116: the base64url text of the record of the
payload and its HMAC-SHA256 tag under `demoSecret1`.  The tag ends in the byte
0x91. -/
def demoToken1 : String :=
  "eyJwYXlsb2FkIjoiZXlKbGVIQnBjbUYwYVc5dUlqb2lNVGszTUMwd01TMHdNVlF3TURvd01UbzBNRm9pTENKdWIyNWpaU0k2SWxwWFdtNWhSMnh4WVRKNGRHSnRPWGRqV0VwNlpFRTlQU0lzSW5CaGRHZ2lPaUowWlhOMExuSmxjRzh1YjNKbkwzQmhkR2d2YjI1bEluMD0iLCJ0YWciOiIzVk1HNTJ6OUIxU2Y1X3F2SlBYZUI1M3VuT2lNcWxDZS0xcFc5aWp3bDVFPSJ9"

/-- The string `demoToken1` after one byte of its tag was altered: the last
byte of the tag is 0x90 instead of 0x91, everything else is the same. -/
def demoToken1Tampered : String :=
  "eyJwYXlsb2FkIjoiZXlKbGVIQnBjbUYwYVc5dUlqb2lNVGszTUMwd01TMHdNVlF3TURvd01UbzBNRm9pTENKdWIyNWpaU0k2SWxwWFdtNWhSMnh4WVRKNGRHSnRPWGRqV0VwNlpFRTlQU0lzSW5CaGRHZ2lPaUowWlhOMExuSmxjRzh1YjNKbkwzQmhkR2d2YjI1bEluMD0iLCJ0YWciOiIzVk1HNTJ6OUIxU2Y1X3F2SlBYZUI1M3VuT2lNcWxDZS0xcFc5aWp3bDVBPSJ9"

/-- The token string for `test.repo.org/path/one`, expiring 300 seconds after
time zero, with the nonce 117, ..., 132, under `demoSecret2`. -/
def demoToken2 : String :=
  "eyJwYXlsb2FkIjoiZXlKbGVIQnBjbUYwYVc5dUlqb2lNVGszTUMwd01TMHdNVlF3TURvd05Ub3dNRm9pTENKdWIyNWpaU0k2SW1SWVdqTmxTR3cyWlRONE9XWnVMVUZuV1V0RWFFRTlQU0lzSW5CaGRHZ2lPaUowWlhOMExuSmxjRzh1YjNKbkwzQmhkR2d2YjI1bEluMD0iLCJ0YWciOiI4aFRabUp6YkxUS3VQSEJhczRDdjN5WnZwOGI5XzR3NG9VSWxqWGd0aHlzPSJ9"

/-- The token string for `test.repo.org/path`, expiring 100 seconds after time
zero, with the nonce 133, ..., 148, under `demoSecret3`. -/
def demoToken3 : String :=
  "eyJwYXlsb2FkIjoiZXlKbGVIQnBjbUYwYVc5dUlqb2lNVGszTUMwd01TMHdNVlF3TURvd01UbzBNRm9pTENKdWIyNWpaU0k2SW1oWllVaHBTVzFMYVRSNVRtcHZMVkZyV2t0VWJFRTlQU0lzSW5CaGRHZ2lPaUowWlhOMExuSmxjRzh1YjNKbkwzQmhkR2dpZlE9PSIsInRhZyI6InhoRnlHZnk4UkdVOVZMRWdFV2g1LUxVbGNhVHRENndWbU92V094Wkt3QUE9In0="

/-- The ambient state at time zero, with the randomness for the first token. -/
def demoAmbient : Ambient :=
  { now := 0,
    entropy :=
      [(demoToken1, demoSecret1,
          [101, 102, 103, 104, 105, 106, 107, 108, 109, 110, 111, 112, 113, 114, 115, 116])],
    issued := [] }

/-- The first token as `NewLeaseToken` mints it at time zero. -/
def demoLeaseToken1 : LeaseToken :=
  { TokenStr := demoToken1, Secret := demoSecret1, Expiration := 100000000000 }

/-- The second token as `NewLeaseToken` mints it 200 seconds after time zero. -/
def demoLeaseToken2 : LeaseToken :=
  { TokenStr := demoToken2, Secret := demoSecret2, Expiration := 300000000000 }

/-- The third token as `NewLeaseToken` mints it at time zero. -/
def demoLeaseToken3 : LeaseToken :=
  { TokenStr := demoToken3, Secret := demoSecret3, Expiration := 100000000000 }

/-- The ambient state after the first token was minted for
`test.repo.org/path/one`. -/
def demoAmbient1 : Ambient :=
  (idealNewLeaseToken "test.repo.org/path/one" 100000000000 demoAmbient).2

/-- The store at time zero holding the lease of `key1` on
`test.repo.org/path/one` under the first token. -/
def demoStore1 : StoreState :=
  { leases := GoMap.empty.set "test.repo.org/path/one"
      { KeyID := "key1", Token := demoLeaseToken1 },
    clock := 0 }

/-- The ambient state `demoAmbient1` with the randomness for the third
token. -/
def demoAmbientBusy : Ambient :=
  { demoAmbient1 with
    entropy :=
      [(demoToken3, demoSecret3,
          [133, 134, 135, 136, 137, 138, 139, 140, 141, 142, 143, 144, 145, 146, 147, 148])] }

/-- The ambient state `demoAmbient1` 200 seconds later, with the randomness for
the second token. -/
def demoAmbientLate : Ambient :=
  { demoAmbient1 with
    now := 200000000000,
    entropy :=
      [(demoToken2, demoSecret2,
          [117, 118, 119, 120, 121, 122, 123, 124, 125, 126, 127, 128, 129, 130, 131, 132])] }

/-- The store `demoStore1` 200 seconds later: its lease has expired. -/
def demoStoreLate : StoreState :=
  { demoStore1 with clock := 200000000000 }

/-- A fourth secret of 32 bytes. -/
def demoSecret4 : Bytes :=
  [97, 98, 99, 100, 101, 102, 103, 104, 105, 106, 107, 108, 109, 110, 111, 112,
   113, 114, 115, 116, 117, 118, 119, 120, 121, 122, 123, 124, 125, 126, 127, 128]

/-- The token string for `test.repo.org/path/two`, expiring 300 seconds after
time zero, with the nonce 149, ..., 164, under `demoSecret4`. -/
def demoToken4 : String :=
  "eyJwYXlsb2FkIjoiZXlKbGVIQnBjbUYwYVc5dUlqb2lNVGszTUMwd01TMHdNVlF3TURvd05Ub3dNRm9pTENKdWIyNWpaU0k2SW14YVlWaHRTbTFoYlRWNVpHNXdMV2R2WVV0cWNFRTlQU0lzSW5CaGRHZ2lPaUowWlhOMExuSmxjRzh1YjNKbkwzQmhkR2d2ZEhkdkluMD0iLCJ0YWciOiI4MUdWcDRFT0M3cElsRFJtQzdDRVI1dkZtUVNBUU9lRGd6MS0zZ1dWU1k4PSJ9"

/-- The fourth token as `NewLeaseToken` mints it 200 seconds after time zero. -/
def demoLeaseToken4 : LeaseToken :=
  { TokenStr := demoToken4, Secret := demoSecret4, Expiration := 300000000000 }

/-- The store 200 seconds after time zero with two leases: the expired one on
`test.repo.org/path/one` and a running one on `test.repo.org/path/two`. -/
def demoStoreLateTwo : StoreState :=
  { leases := demoStore1.leases.set "test.repo.org/path/two"
      { KeyID := "key1", Token := demoLeaseToken4 },
    clock := 200000000000 }

/-- A store at time zero that holds, under the sibling path
`test.repo.org/path/zzz` and for another key, a lease carrying the very token
that `NewLeaseToken` mints next from `demoAmbient`. -/
def demoStoreCollision : StoreState :=
  { leases := GoMap.empty.set "test.repo.org/path/zzz"
      { KeyID := "other", Token := demoLeaseToken1 },
    clock := 0 }

/-- The store `demoStoreCollision` after `key1` leased
`test.repo.org/path/one` under the first token. -/
def demoStoreCollision1 : StoreState :=
  { leases := demoStoreCollision.leases.set "test.repo.org/path/one"
      { KeyID := "key1", Token := demoLeaseToken1 },
    clock := 0 }

/-! # Theorems -/

set_option maxRecDepth 100000

/-! ## Lemmas on maps -/

theorem GoMap.get_empty {α : Type} (k : String) : (GoMap.empty : GoMap α).get k = none := rfl

theorem find_key_filter_ne {α : Type} (l : List (String × α)) (k : String) :
    (l.filter (fun e => decide (e.1 ≠ k))).find? (fun e => decide (e.1 = k)) = none := by
  rw [List.find?_eq_none]
  intro e he
  have := (List.mem_filter.mp he).2
  simpa using this

theorem find_other_filter_ne {α : Type} (l : List (String × α)) (k j : String) (h : j ≠ k) :
    (l.filter (fun e => decide (e.1 ≠ k))).find? (fun e => decide (e.1 = j))
      = l.find? (fun e => decide (e.1 = j)) := by
  induction l with
  | nil => rfl
  | cons e l ih =>
    by_cases hk : e.1 = k
    · have hj : ¬ e.1 = j := fun hj => h (hj.symm.trans hk)
      rw [List.filter_cons_of_neg (by simpa using hk),
        List.find?_cons_of_neg _ (by simpa using hj), ih]
    · rw [List.filter_cons_of_pos (by simpa using hk), List.find?_cons, List.find?_cons, ih]

theorem GoMap.get_set_self {α : Type} (m : GoMap α) (k : String) (v : α) :
    (m.set k v).get k = some v := by
  simp [GoMap.get, GoMap.set, List.find?_append, find_key_filter_ne]

theorem GoMap.get_set_ne {α : Type} (m : GoMap α) (k j : String) (v : α) (h : j ≠ k) :
    (m.set k v).get j = m.get j := by
  have hkj : decide (k = j) = false := by simpa using fun e : k = j => h e.symm
  unfold GoMap.get GoMap.set
  simp only [List.find?_append, find_other_filter_ne _ _ _ h, List.find?_cons, hkj,
    List.find?_nil, Option.or_none]

theorem find_key_of_not_mem {α : Type} (l : List (String × α)) (k : String)
    (h : k ∉ l.map Prod.fst) : l.find? (fun e => decide (e.1 = k)) = none := by
  rw [List.find?_eq_none]
  intro e he hk
  exact h (List.mem_map.mpr ⟨e, he, by simpa using hk⟩)

/-- The loop of `GetLeases`, entry by entry: a key of the visited entries ends
with the projection of its lease when the token validates and keeps what the
accumulator held otherwise; any other key keeps what the accumulator held. -/
theorem getLeases_fold_get {ρ : Type} (pkg : Package ρ) (r : ρ) (k : String) :
    ∀ (l : List (String × Lease)) (_ : (l.map Prod.fst).Nodup) (acc : GoMap LeaseReturn),
      (l.foldl (Services.getLeasesStep pkg r) acc).get k =
        match l.find? (fun e => decide (e.1 = k)) with
        | none => acc.get k
        | some e =>
          match pkg.CheckToken e.2.Token.TokenStr e.2.Token.Secret r with
          | Except.ok _ =>
            some { KeyID := e.2.KeyID, TokenStr := e.2.Token.TokenStr,
                   Expires := pkg.timeString e.2.Token.Expiration }
          | Except.error _ => acc.get k := by
  intro l
  induction l with
  | nil => intro _ acc; rfl
  | cons e l ih =>
    intro hnd acc
    have hnd1 : (l.map Prod.fst).Nodup := (List.nodup_cons.mp hnd).2
    have hnot : e.1 ∉ l.map Prod.fst := (List.nodup_cons.mp hnd).1
    rw [List.foldl_cons, ih hnd1]
    by_cases hk : e.1 = k
    · subst hk
      rw [find_key_of_not_mem l e.1 hnot]
      simp only [List.find?_cons, decide_True]
      unfold Services.getLeasesStep
      cases pkg.CheckToken e.2.Token.TokenStr e.2.Token.Secret r with
      | ok p => simp [GoMap.get_set_self]
      | error err => simp
    · have hacc : (Services.getLeasesStep pkg r acc e).get k = acc.get k := by
        unfold Services.getLeasesStep
        cases pkg.CheckToken e.2.Token.TokenStr e.2.Token.Secret r with
        | ok p => simp [GoMap.get_set_ne _ _ _ _ (fun h => hk h.symm)]
        | error err => simp
      simp only [List.find?_cons, hk, decide_False, hacc]

theorem wrapped_ne_self (err : Error) (message : String) :
    errors.Wrap err message ≠ err := by
  intro h
  have := congrArg sizeOf h
  simp [errors.Wrap] at this
  omega

theorem find_key_mem {α : Type} (l : List (String × α)) (k : String) (e : String × α)
    (h : l.find? (fun x => decide (x.1 = k)) = some e) : e ∈ l ∧ e.1 = k :=
  ⟨List.mem_of_find?_eq_some h, by simpa using List.find?_some h⟩

theorem GoMap.mem_of_get {α : Type} (m : GoMap α) (k : String) (v : α)
    (h : m.get k = some v) : (k, v) ∈ m.entries := by
  unfold GoMap.get at h
  cases hf : m.entries.find? (fun x => decide (x.1 = k)) with
  | none => simp [hf] at h
  | some e =>
    simp only [hf, Option.map_some', Option.some.injEq] at h
    obtain ⟨hmem, hk⟩ := find_key_mem _ _ _ hf
    have : e = (k, v) := Prod.ext hk h
    rw [← this]
    exact hmem

theorem find_key_of_mem_nodup {α : Type} :
    ∀ (l : List (String × α)), (l.map Prod.fst).Nodup → ∀ (k : String) (v : α),
      (k, v) ∈ l → l.find? (fun x => decide (x.1 = k)) = some (k, v) := by
  intro l
  induction l with
  | nil => intro _ k v h; simp at h
  | cons e l ih =>
    intro hnd k v h
    have hnd1 : (l.map Prod.fst).Nodup := (List.nodup_cons.mp hnd).2
    have hnot : e.1 ∉ l.map Prod.fst := (List.nodup_cons.mp hnd).1
    rcases List.mem_cons.mp h with heq | hmem
    · subst heq
      simp
    · have hne : ¬ e.1 = k := by
        intro hk
        exact hnot (List.mem_map.mpr ⟨(k, v), hmem, hk.symm⟩)
      rw [List.find?_cons_of_neg _ (by simpa using hne)]
      exact ih hnd1 k v hmem

theorem GoMap.get_of_mem {α : Type} (m : GoMap α) (k : String) (v : α)
    (h : (k, v) ∈ m.entries) : m.get k = some v := by
  unfold GoMap.get
  rw [find_key_of_mem_nodup m.entries m.nodup k v h]
  rfl

/-! ## Lemmas on the embedded store and on the steps of the facade -/

theorem IsPrefix_self (a : String) : IsPrefix a a = true := by
  simp [IsPrefix]

theorem GoMap.delete_entries_subset {α : Type} (m : GoMap α) (k : String) :
    (m.delete k).entries ⊆ m.entries :=
  fun _ hx => (List.mem_filter.mp hx).1

/-- The map a successful conflict check hands back holds only entries of the
map it started from. -/
theorem conflictScan_subset (split : String → Except Error (String × String)) (now : Time)
    (path repo sub : String) :
    ∀ (l : List (String × Lease)) (m m1 : GoMap Lease),
      conflictScan split now path repo sub l m = Except.ok m1 → m1.entries ⊆ m.entries := by
  intro l
  induction l with
  | nil =>
    intro m m1 h
    simp only [conflictScan, Except.ok.injEq] at h
    rw [← h]
    exact fun _ hx => hx
  | cons e l ih =>
    intro m m1 h
    unfold conflictScan at h
    split at h
    · exact ih m m1 h
    · split_ifs at h
      · exact ih m m1 h
      · exact fun x hx => GoMap.delete_entries_subset m e.1 (ih _ m1 h hx)
      · exact ih m m1 h

/-- The conflict check fails with `PathBusy` as soon as the visited entries
hold a lease of the same repository that is not expired and whose subpath is a
prefix of the requested one or has it as a prefix. -/
theorem conflictScan_busy (split : String → Except Error (String × String)) (now : Time)
    (path repo sub : String) :
    ∀ (l : List (String × Lease)) (m : GoMap Lease) (q : String × Lease) (subQ : String),
      q ∈ l → split q.1 = Except.ok (repo, subQ) → q.2.expired now = false →
      (IsPrefix subQ sub = true ∨ IsPrefix sub subQ = true) →
      ∃ existing, conflictScan split now path repo sub l m
        = Except.error (Error.PathBusy existing) := by
  intro l
  induction l with
  | nil => intro m q subQ hq; simp at hq
  | cons e l ih =>
    intro m q subQ hq hsq hlive hov
    unfold conflictScan
    rcases List.mem_cons.mp hq with heq | hmem
    · subst heq
      simp only [hsq, ne_eq, not_true_eq_false, if_false, hlive, and_true]
      by_cases hsame : subQ = sub
      · exact ⟨path, by simp [hsame]⟩
      · exact ⟨q.1, by simp [hsame, hov]⟩
    · split
      · exact ih m q subQ hmem hsq hlive hov
      · split_ifs
        · exact ih m q subQ hmem hsq hlive hov
        · exact ⟨path, rfl⟩
        · exact ⟨e.1, rfl⟩
        · exact ih _ q subQ hmem hsq hlive hov
        · exact ih m q subQ hmem hsq hlive hov

/-- The conflict check passes when every visited lease of the same repository
is expired or has a subpath that neither is a prefix of the requested one nor
has it as a prefix. -/
theorem conflictScan_passes (split : String → Except Error (String × String)) (now : Time)
    (path repo sub : String) :
    ∀ (l : List (String × Lease)) (m : GoMap Lease),
      (∀ e ∈ l, ∀ sub1, split e.1 = Except.ok (repo, sub1) →
        e.2.expired now = true ∨ (IsPrefix sub1 sub = false ∧ IsPrefix sub sub1 = false)) →
      ∃ m1, conflictScan split now path repo sub l m = Except.ok m1 := by
  intro l
  induction l with
  | nil => intro m _; exact ⟨m, rfl⟩
  | cons e l ih =>
    intro m h
    have hrest : ∀ x ∈ l, ∀ sub1, split x.1 = Except.ok (repo, sub1) →
        x.2.expired now = true ∨ (IsPrefix sub1 sub = false ∧ IsPrefix sub sub1 = false) :=
      fun x hx => h x (List.mem_cons_of_mem _ hx)
    unfold conflictScan
    split
    · exact ih m hrest
    · rename_i repo1 sub1 hs
      split_ifs with h1 h2 h3 h4
      · exact ih m hrest
      · exfalso
        have hrepo : repo1 = repo := by simpa using h1
        subst hrepo
        rcases h e (List.mem_cons_self _ _) sub1 hs with hx | hx
        · rw [h2.2] at hx; exact Bool.false_ne_true hx
        · rw [h2.1, IsPrefix_self] at hx; exact Bool.false_ne_true hx.1.symm
      · exfalso
        have hrepo : repo1 = repo := by simpa using h1
        subst hrepo
        rcases h e (List.mem_cons_self _ _) sub1 hs with hx | hx
        · rw [h3.2] at hx; exact Bool.false_ne_true hx
        · rcases h3.1 with hp | hp
          · rw [hx.1] at hp; exact Bool.false_ne_true hp
          · rw [hx.2] at hp; exact Bool.false_ne_true hp
      · exact ih _ hrest
      · exact ih m hrest

theorem GoMap.ext_entries {α : Type} (m n : GoMap α) (h : m.entries = n.entries) : m = n := by
  cases m; cases n; cases h; rfl

/-- A successful `Services.NewLease` went through every step: the path parsed,
the access check passed, a token was minted, the store accepted the lease, and
the string returned is the token string. -/
theorem NewLease_success_steps {σ ρ : Type} (pkg : Package ρ) (s : Services σ ρ)
    (keyID leasePath t : String) (r r2 : ρ) (st st1 : σ)
    (h : Services.NewLease pkg s keyID leasePath r st = ((t, none), r2, st1)) :
    ∃ repoName subPath r1 token,
      pkg.SplitLeasePath leasePath = Except.ok (repoName, subPath)
      ∧ s.Access.Check keyID subPath repoName r = (none, r1)
      ∧ pkg.NewLeaseToken leasePath (durationSeconds s.Config.MaxLeaseTime) r1
          = (Except.ok token, r2)
      ∧ s.Leases.NewLease keyID leasePath token st = (none, st1)
      ∧ token.TokenStr = t := by
  unfold Services.NewLease at h
  cases hs : pkg.SplitLeasePath leasePath with
  | error e => simp [hs] at h
  | ok p =>
    obtain ⟨repoName, subPath⟩ := p
    simp only [hs] at h
    cases hc : s.Access.Check keyID subPath repoName r with
    | mk oe r1 =>
      cases oe with
      | some e => simp [hc] at h
      | none =>
        simp only [hc] at h
        cases hm : pkg.NewLeaseToken leasePath (durationSeconds s.Config.MaxLeaseTime) r1 with
        | mk res r2a =>
          cases res with
          | error e => simp [hm] at h
          | ok token =>
            simp only [hm] at h
            cases hn : s.Leases.NewLease keyID leasePath token st with
            | mk oe2 st1a =>
              cases oe2 with
              | some e => simp [hn] at h
              | none =>
                simp only [hn, Prod.mk.injEq, and_true] at h
                obtain ⟨h1, h2, h3⟩ := h
                subst h2 h3
                exact ⟨repoName, subPath, r1, token, rfl, hc, hm, hn, h1⟩

/-- A successful `NewLease` of the embedded store leaves a map made of entries
it held before, with the new lease set at the path. -/
theorem EmbeddedLeaseDB_NewLease_success
    (split : String → Except Error (String × String)) (st st1 : StoreState)
    (keyID path : String) (token : LeaseToken)
    (h : (EmbeddedLeaseDB split).NewLease keyID path token st = (none, st1)) :
    ∃ m1 : GoMap Lease, m1.entries ⊆ st.leases.entries
      ∧ st1 = { st with leases := m1.set path { KeyID := keyID, Token := token } } := by
  simp only [EmbeddedLeaseDB] at h
  cases hs : split path with
  | error e => simp [hs] at h
  | ok p =>
    obtain ⟨repo, sub⟩ := p
    simp only [hs] at h
    cases hc : conflictScan split st.clock path repo sub st.leases.entries st.leases with
    | error e => simp [hc] at h
    | ok m1 =>
      simp only [hc, Prod.mk.injEq, true_and] at h
      exact ⟨m1, conflictScan_subset split st.clock path repo sub _ _ _ hc, h.symm⟩

/-- The scan by token string finds the lease just set when no other entry
carries its token string. -/
theorem find_token_set (m : GoMap Lease) (path : String) (lease : Lease)
    (hfresh : ∀ e ∈ m.entries, e.2.Token.TokenStr ≠ lease.Token.TokenStr) :
    (m.set path lease).entries.find? (fun e => decide (e.2.Token.TokenStr = lease.Token.TokenStr))
      = some (path, lease) := by
  have hnone : (m.entries.filter (fun e => decide (e.1 ≠ path))).find?
      (fun e => decide (e.2.Token.TokenStr = lease.Token.TokenStr)) = none := by
    rw [List.find?_eq_none]
    intro e he
    simpa using hfresh e (List.mem_filter.mp he).1
  simp only [GoMap.set, List.find?_append, hnone, List.find?_cons, decide_True,
    Option.none_or]

/-- A token minted by the idealised service validates under its own secret at
every time before its expiration. -/
theorem idealCheckToken_minted (path : String) (lifetime : Int) (a a1 : Ambient)
    (token : LeaseToken)
    (h : idealNewLeaseToken path lifetime a = (Except.ok token, a1)) (n : Time)
    (hn : n < token.Expiration) :
    ∃ p, idealCheckToken token.TokenStr token.Secret { a1 with now := n } = Except.ok p := by
  unfold idealNewLeaseToken at h
  cases he : a.entropy with
  | nil => simp [he] at h
  | cons d rest =>
    obtain ⟨wire, secret, nonce⟩ := d
    simp only [he, Prod.mk.injEq, Except.ok.injEq] at h
    obtain ⟨htok, ha1⟩ := h
    subst htok
    subst ha1
    simp only at hn
    exact ⟨{ Path := path, Expiration := a.now + lifetime, Nonce := nonce },
      by simp [idealCheckToken, hn]⟩

/-! ## The facade: acquisition, queries and cancellation -/

/-- C1 (authorization at acquisition).  Over the logging store, `Services.NewLease`
leaves an entry in the log of store calls only if `SplitLeasePath` returned a
repository and a subpath and `Access.Check` returned no error for them; and
whenever `Access.Check` returns an error, `Services.NewLease` returns the empty
token string with exactly that error and the store state it was given. -/
theorem NewLease_authorization {σ ρ : Type} (pkg : Package ρ) (s : Services σ ρ)
    (keyID leasePath : String) (r : ρ) (st : σ) (log : List StoreCall) :
    ((Services.NewLease pkg s.logged keyID leasePath r (st, log)).2.2.2 ≠ log →
        ∃ repoName subPath, pkg.SplitLeasePath leasePath = Except.ok (repoName, subPath)
          ∧ (s.Access.Check keyID subPath repoName r).1 = none)
    ∧ (∀ repoName subPath err r1,
        pkg.SplitLeasePath leasePath = Except.ok (repoName, subPath) →
        s.Access.Check keyID subPath repoName r = (some err, r1) →
        Services.NewLease pkg s keyID leasePath r st = (("", some err), r1, st)
          ∧ Services.NewLease pkg s.logged keyID leasePath r (st, log)
              = (("", some err), r1, (st, log))) := by
  constructor
  · intro h
    unfold Services.NewLease at h
    cases hs : pkg.SplitLeasePath leasePath with
    | error e => simp [hs] at h
    | ok p =>
      obtain ⟨repoName, subPath⟩ := p
      refine ⟨repoName, subPath, rfl, ?_⟩
      simp only [hs] at h
      cases hc : s.Access.Check keyID subPath repoName r with
      | mk oe r1 =>
        cases oe with
        | none => rfl
        | some e => simp [Services.logged, hc] at h
  · intro repoName subPath err r1 hs hc
    simp [Services.NewLease, Services.logged, hs, hc]

/-- C1 at a concrete input: `key2` may only write below `/restricted/to/subdir`,
so its request for `test.repo.org/other` is refused with
`SubpathOutsideAllowed` and the empty store stays empty, no store call logged. -/
theorem NewLease_authorization_witness :
    Services.NewLease demoPackage demoServices "key2" "test.repo.org/other" demoAmbient
        emptyStore
      = (("", some Error.SubpathOutsideAllowed), demoAmbient, emptyStore)
    ∧ Services.NewLease demoPackage demoServices.logged "key2" "test.repo.org/other"
        demoAmbient (emptyStore, [])
      = (("", some Error.SubpathOutsideAllowed), demoAmbient, (emptyStore, [])) :=
  (NewLease_authorization demoPackage demoServices "key2" "test.repo.org/other" demoAmbient
    emptyStore []).2 "test.repo.org" "/other" Error.SubpathOutsideAllowed demoAmbient
    (by rfl) (by rfl)

/-- C2 (a failing verification does not delete).  If the lookup by token fails,
or the lookup succeeds and `CheckToken` fails under the secret of the lease
found, `Services.CancelLease` returns that error and the store state it was
given; over the logging store the log is as it was, so `CancelLeaseForToken`
was not invoked. -/
theorem CancelLease_failure_keeps_store {σ ρ : Type} (pkg : Package ρ)
    (s : Services σ ρ) (tokenStr : String) (r : ρ) (st : σ) (log : List StoreCall) :
    (∀ err, s.Leases.GetLeaseForToken tokenStr st = Except.error err →
        Services.CancelLease pkg s tokenStr r st = (some err, st)
          ∧ Services.CancelLease pkg s.logged tokenStr r (st, log) = (some err, (st, log)))
    ∧ (∀ leasePath lease err,
        s.Leases.GetLeaseForToken tokenStr st = Except.ok (leasePath, lease) →
        pkg.CheckToken tokenStr lease.Token.Secret r = Except.error err →
        Services.CancelLease pkg s tokenStr r st = (some err, st)
          ∧ Services.CancelLease pkg s.logged tokenStr r (st, log)
              = (some err, (st, log))) := by
  constructor
  · intro err h
    simp [Services.CancelLease, Services.logged, LeaseDB.logged, h]
  · intro leasePath lease err h hc
    simp [Services.CancelLease, Services.logged, LeaseDB.logged, h, hc]

/-- C2 at concrete inputs: cancelling with a token string no lease carries fails
with the store's `NotFound`, cancelling with the token of the stored lease after
its expiration fails with `ExpiredToken`; the store keeps its lease both
times. -/
theorem CancelLease_failure_keeps_store_witness :
    (Services.CancelLease demoPackage demoServices demoToken1Tampered demoAmbient1 demoStore1
        = (some Error.NotFound, demoStore1)
      ∧ Services.CancelLease demoPackage demoServices.logged demoToken1Tampered demoAmbient1
          (demoStore1, []) = (some Error.NotFound, (demoStore1, [])))
    ∧ (Services.CancelLease demoPackage demoServices demoToken1 demoAmbientLate demoStore1
        = (some Error.ExpiredToken, demoStore1)
      ∧ Services.CancelLease demoPackage demoServices.logged demoToken1 demoAmbientLate
          (demoStore1, []) = (some Error.ExpiredToken, (demoStore1, []))) :=
  ⟨(CancelLease_failure_keeps_store demoPackage demoServices demoToken1Tampered demoAmbient1
      demoStore1 []).1 Error.NotFound (by rfl),
   (CancelLease_failure_keeps_store demoPackage demoServices demoToken1 demoAmbientLate
      demoStore1 []).2 "test.repo.org/path/one" { KeyID := "key1", Token := demoLeaseToken1 }
      Error.ExpiredToken (by rfl) (by rfl)⟩

/-- C3 (a store error is surfaced verbatim).  When the path parses, the access
check passes and the token is minted, an error `err` of the store's `NewLease`
makes `Services.NewLease` return the empty token string and `err` itself, so the
type test for `PathBusyError` gives the same answer on the facade's error as on
the store's. -/
theorem NewLease_store_error_verbatim {σ ρ : Type} (pkg : Package ρ) (s : Services σ ρ)
    (keyID leasePath repoName subPath : String) (r r1 r2 : ρ) (st st1 : σ)
    (token : LeaseToken) (err : Error)
    (hsplit : pkg.SplitLeasePath leasePath = Except.ok (repoName, subPath))
    (hcheck : s.Access.Check keyID subPath repoName r = (none, r1))
    (hmint : pkg.NewLeaseToken leasePath (durationSeconds s.Config.MaxLeaseTime) r1
      = (Except.ok token, r2))
    (hstore : s.Leases.NewLease keyID leasePath token st = (some err, st1)) :
    Services.NewLease pkg s keyID leasePath r st = (("", some err), r2, st1)
    ∧ (Services.NewLease pkg s keyID leasePath r st).1.2
        = (s.Leases.NewLease keyID leasePath token st).1
    ∧ (Services.NewLease pkg s keyID leasePath r st).1.2.map Error.isPathBusy
        = some err.isPathBusy := by
  have h : Services.NewLease pkg s keyID leasePath r st = (("", some err), r2, st1) := by
    simp [Services.NewLease, hsplit, hcheck, hmint, hstore]
  refine ⟨h, ?_, ?_⟩
  · rw [h, hstore]
  · rw [h]; rfl

/-- C3 at a concrete input: with `test.repo.org/path/one` leased, the request of
`key1` for `test.repo.org/path` returns the store's `PathBusy` naming the
existing path. -/
theorem NewLease_store_error_verbatim_witness :
    Services.NewLease demoPackage demoServices "key1" "test.repo.org/path" demoAmbientBusy
        demoStore1
      = (("", some (Error.PathBusy "test.repo.org/path/one")),
          (idealNewLeaseToken "test.repo.org/path" 100000000000 demoAmbientBusy).2, demoStore1)
    ∧ (Services.NewLease demoPackage demoServices "key1" "test.repo.org/path" demoAmbientBusy
        demoStore1).1.2
      = (demoServices.Leases.NewLease "key1" "test.repo.org/path" demoLeaseToken3
          demoStore1).1
    ∧ (Services.NewLease demoPackage demoServices "key1" "test.repo.org/path" demoAmbientBusy
        demoStore1).1.2.map Error.isPathBusy
      = some (Error.PathBusy "test.repo.org/path/one").isPathBusy :=
  NewLease_store_error_verbatim demoPackage demoServices "key1" "test.repo.org/path"
    "test.repo.org" "/path" demoAmbientBusy demoAmbientBusy
    (idealNewLeaseToken "test.repo.org/path" 100000000000 demoAmbientBusy).2 demoStore1
    demoStore1 demoLeaseToken3 (Error.PathBusy "test.repo.org/path/one")
    (by rfl) (by rfl) (by rfl) (by rfl)

/-- C4 (`GetLeases` returns all and only the valid leases).  When the store's
`GetLeases` returns the snapshot `m`, `Services.GetLeases` returns a map that has
an entry for `k` exactly when `m` has a lease `v` for `k` whose token passes
`CheckToken` under the lease's secret; the entry is then made of the key
identifier, the token string and the rendered expiration of `v`, its
`LeasePath` is empty, and it is determined by those three fields alone: a lease
that agrees with `v` on them gives the same entry whatever its secret is. -/
theorem GetLeases_valid_projection {σ ρ : Type} (pkg : Package ρ) (s : Services σ ρ)
    (r : ρ) (st : σ) (m : GoMap Lease) (hm : s.Leases.GetLeases st = Except.ok m) :
    ∃ ret, Services.GetLeases pkg s r st = Except.ok ret
      ∧ (∀ k, ret.get k =
          match m.get k with
          | none => none
          | some v =>
            match pkg.CheckToken v.Token.TokenStr v.Token.Secret r with
            | Except.ok _ =>
              some { KeyID := v.KeyID, LeasePath := "", TokenStr := v.Token.TokenStr,
                     Expires := pkg.timeString v.Token.Expiration }
            | Except.error _ => none)
      ∧ (∀ k x, ret.get k = some x →
          ∃ v, m.get k = some v
            ∧ (∃ p, pkg.CheckToken v.Token.TokenStr v.Token.Secret r = Except.ok p)
            ∧ x.LeasePath = ""
            ∧ ∀ w : Lease, w.KeyID = v.KeyID → w.Token.TokenStr = v.Token.TokenStr →
                w.Token.Expiration = v.Token.Expiration →
                x = { KeyID := w.KeyID, LeasePath := "", TokenStr := w.Token.TokenStr,
                      Expires := pkg.timeString w.Token.Expiration }) := by
  have hget : ∀ k, (m.entries.foldl (Services.getLeasesStep pkg r) GoMap.empty).get k =
      match m.get k with
      | none => none
      | some v =>
        match pkg.CheckToken v.Token.TokenStr v.Token.Secret r with
        | Except.ok _ =>
          some { KeyID := v.KeyID, LeasePath := "", TokenStr := v.Token.TokenStr,
                 Expires := pkg.timeString v.Token.Expiration }
        | Except.error _ => none := by
    intro k
    rw [getLeases_fold_get pkg r k m.entries m.nodup GoMap.empty]
    unfold GoMap.get
    cases m.entries.find? (fun e => decide (e.1 = k)) with
    | none => rfl
    | some e =>
      simp only [Option.map_some']
      cases pkg.CheckToken e.2.Token.TokenStr e.2.Token.Secret r <;> rfl
  refine ⟨_, by simp [Services.GetLeases, hm], hget, ?_⟩
  intro k x hx
  rw [hget k] at hx
  cases hv : m.get k with
  | none => simp [hv] at hx
  | some v =>
    simp only [hv] at hx
    cases hc : pkg.CheckToken v.Token.TokenStr v.Token.Secret r with
    | error e => simp [hc] at hx
    | ok p =>
      simp only [hc, Option.some.injEq] at hx
      refine ⟨v, rfl, ⟨p, hc⟩, ?_, ?_⟩
      · rw [← hx]
      · intro w h1 h2 h3
        rw [← hx, h1, h2, h3]

/-- C4 at a concrete input: the store holding one valid lease. -/
theorem GetLeases_valid_projection_witness :
    ∃ ret, Services.GetLeases demoPackage demoServices demoAmbient1 demoStore1 = Except.ok ret
      ∧ ret.get "test.repo.org/path/one"
          = some { KeyID := "key1", LeasePath := "", TokenStr := demoToken1,
                   Expires := "1970-01-01 00:01:40 +0000 UTC" }
      ∧ ret.get "test.repo.org/path/two" = none := by
  obtain ⟨ret, hret, hget, _⟩ :=
    GetLeases_valid_projection demoPackage demoServices demoAmbient1 demoStore1
      demoStore1.leases (by rfl)
  refine ⟨ret, hret, ?_, ?_⟩
  · rw [hget]; rfl
  · rw [hget]; rfl

/-- C5, as stated, fails: the store holds the lease of the valid token string
`demoToken1`, `demoToken1Tampered` is that string with one byte of its tag
altered (the two strings differ in one character), and `Services.GetLease` of
the tampered string fails with `NotFound`, not with `InvalidToken`. -/
theorem GetLease_tampered_counterexample :
    Services.GetLease demoPackage demoServices demoToken1 demoAmbient1 demoStore1
      = (Except.ok { KeyID := "key1", LeasePath := "test.repo.org/path/one",
                     Expires := "1970-01-01 00:01:40 +0000 UTC" }, demoStore1)
    ∧ demoToken1Tampered.length = demoToken1.length
    ∧ ((demoToken1.data.zip demoToken1Tampered.data).filter
        (fun p => decide (p.1 ≠ p.2))).length = 1
    ∧ Services.GetLease demoPackage demoServices demoToken1Tampered demoAmbient1 demoStore1
      = (Except.error Error.NotFound, demoStore1)
    ∧ (Services.GetLease demoPackage demoServices demoToken1Tampered demoAmbient1
        demoStore1).1 ≠ Except.error Error.InvalidToken := by
  refine ⟨by rfl, by rfl, by rfl, by rfl, ?_⟩
  intro h
  have h2 : (Services.GetLease demoPackage demoServices demoToken1Tampered demoAmbient1
      demoStore1).1 = Except.error Error.NotFound := by rfl
  rw [h2] at h
  exact absurd (Except.error.inj h) (by decide)

/-- C5, amended.  Over the embedded store, for every token service:
for a token string that no stored lease carries, `Services.GetLease` fails with
`NotFound`, the error of the lookup by token, and returns the store state it was
given, also over the logging store; when the lookup returns a lease, which then
is a stored lease carrying the token string, `GetLease` returns what
`CheckToken` decides under the secret of that lease; so `GetLease` fails with
`InvalidToken` exactly when the lookup returns a lease and `CheckToken` fails
with `InvalidToken` under its secret; and the store state after the call is
always the state before it. -/
theorem GetLease_unknown_token {ρ : Type} (pkg : Package ρ) (access : AccessConfig ρ)
    (split : String → Except Error (String × String)) (config : Config)
    (tokenStr : String) (r : ρ) (st : StoreState) (log : List StoreCall) :
    ((∀ e ∈ st.leases.entries, e.2.Token.TokenStr ≠ tokenStr) →
        Services.GetLease pkg (embeddedServices access split config) tokenStr r st
          = (Except.error Error.NotFound, st)
        ∧ Services.GetLease pkg (embeddedServices access split config).logged tokenStr r
            (st, log) = (Except.error Error.NotFound, (st, log)))
    ∧ (∀ leasePath lease,
        (EmbeddedLeaseDB split).GetLeaseForToken tokenStr st = Except.ok (leasePath, lease) →
        ((leasePath, lease) ∈ st.leases.entries ∧ lease.Token.TokenStr = tokenStr)
        ∧ Services.GetLease pkg (embeddedServices access split config) tokenStr r st
          = (match pkg.CheckToken tokenStr lease.Token.Secret r with
              | Except.error err => Except.error err
              | Except.ok _ =>
                Except.ok { KeyID := lease.KeyID, LeasePath := leasePath, TokenStr := "",
                            Expires := pkg.timeString lease.Token.Expiration },
             st))
    ∧ ((Services.GetLease pkg (embeddedServices access split config) tokenStr r st).1
          = Except.error Error.InvalidToken ↔
        ∃ leasePath lease,
          (EmbeddedLeaseDB split).GetLeaseForToken tokenStr st = Except.ok (leasePath, lease)
          ∧ pkg.CheckToken tokenStr lease.Token.Secret r = Except.error Error.InvalidToken)
    ∧ (Services.GetLease pkg (embeddedServices access split config) tokenStr r st).2 = st
    ∧ (Services.GetLease pkg (embeddedServices access split config).logged tokenStr r
        (st, log)).2 = (st, log) := by
  refine ⟨?_, ?_, ?_, ?_, ?_⟩
  · intro hno
    have hnone : st.leases.entries.find? (fun e => decide (e.2.Token.TokenStr = tokenStr))
        = none := by
      rw [List.find?_eq_none]
      intro e he
      simpa using hno e he
    simp [Services.GetLease, Services.logged, LeaseDB.logged, embeddedServices,
      EmbeddedLeaseDB, hnone]
  · intro leasePath lease hl
    constructor
    · simp only [EmbeddedLeaseDB] at hl
      cases hf : st.leases.entries.find? (fun e => decide (e.2.Token.TokenStr = tokenStr)) with
      | none => simp [hf] at hl
      | some e =>
        simp only [hf, Except.ok.injEq] at hl
        have he : e = (leasePath, lease) := hl
        subst he
        exact ⟨List.mem_of_find?_eq_some hf, by simpa using List.find?_some hf⟩
    · simp only [Services.GetLease, embeddedServices, hl]
      cases pkg.CheckToken tokenStr lease.Token.Secret r <;> rfl
  · simp only [Services.GetLease, embeddedServices]
    cases hl : (EmbeddedLeaseDB split).GetLeaseForToken tokenStr st with
    | error err =>
      have herr : err = Error.NotFound := by
        simp only [EmbeddedLeaseDB] at hl
        cases hf : st.leases.entries.find?
            (fun e => decide (e.2.Token.TokenStr = tokenStr)) with
        | none => simp only [hf, Except.error.injEq] at hl; exact hl.symm
        | some e => simp [hf] at hl
      subst herr
      simp
    | ok p =>
      obtain ⟨leasePath, lease⟩ := p
      dsimp only
      cases hc : pkg.CheckToken tokenStr lease.Token.Secret r with
      | error err =>
        constructor
        · intro h
          have herr : err = Error.InvalidToken := Except.error.inj h
          exact ⟨leasePath, lease, rfl, by rw [hc, herr]⟩
        · rintro ⟨lp, l, h1, h3⟩
          obtain ⟨h1a, h1b⟩ := Prod.mk.inj (Except.ok.inj h1)
          subst h1a h1b
          rw [hc] at h3
          rw [Except.error.inj h3]
      | ok q =>
        constructor
        · intro h
          exact absurd h (by simp)
        · rintro ⟨lp, l, h1, h3⟩
          obtain ⟨h1a, h1b⟩ := Prod.mk.inj (Except.ok.inj h1)
          subst h1a h1b
          rw [hc] at h3
          exact absurd h3 (by simp)
  · simp only [Services.GetLease]
    split
    · rfl
    · split <;> rfl
  · simp only [Services.GetLease]
    split
    · rfl
    · split <;> rfl

/-- C5, amended, at concrete inputs: the tampered token string is not found,
under a token service that would call it invalid; the stored token string is
found and validates before its expiration and fails with `ExpiredToken`
after. -/
theorem GetLease_unknown_token_witness :
    Services.GetLease demoPackage demoServices demoToken1Tampered demoAmbient1 demoStore1
      = (Except.error Error.NotFound, demoStore1)
    ∧ demoPackage.CheckToken demoToken1Tampered demoSecret1 demoAmbient1
      = Except.error Error.InvalidToken
    ∧ Services.GetLease demoPackage demoServices demoToken1 demoAmbient1 demoStore1
      = (Except.ok { KeyID := "key1", LeasePath := "test.repo.org/path/one", TokenStr := "",
                     Expires := "1970-01-01 00:01:40 +0000 UTC" }, demoStore1)
    ∧ Services.GetLease demoPackage demoServices demoToken1 demoAmbientLate demoStore1
      = (Except.error Error.ExpiredToken, demoStore1) :=
  ⟨((GetLease_unknown_token demoPackage demoServices.Access SplitLeasePath
      demoServices.Config demoToken1Tampered demoAmbient1 demoStore1 []).1
      (by
        intro e he
        have hent : demoStore1.leases.entries
            = [("test.repo.org/path/one", { KeyID := "key1", Token := demoLeaseToken1 })] := by
          rfl
        rw [hent, List.mem_singleton] at he
        subst he
        decide)).1,
   by rfl,
   ((GetLease_unknown_token demoPackage demoServices.Access SplitLeasePath
      demoServices.Config demoToken1 demoAmbient1 demoStore1 []).2.1
      "test.repo.org/path/one" { KeyID := "key1", Token := demoLeaseToken1 } (by rfl)).2,
   ((GetLease_unknown_token demoPackage demoServices.Access SplitLeasePath
      demoServices.Config demoToken1 demoAmbientLate demoStore1 []).2.1
      "test.repo.org/path/one" { KeyID := "key1", Token := demoLeaseToken1 } (by rfl)).2⟩

/-- C6, as stated, fails: for the empty lease path `SplitLeasePath` fails with
`MalformedPath`, yet the error `Services.NewLease` returns is not that value but
a wrapper around it, on which a test for the `MalformedPath` kind fails. -/
theorem NewLease_malformed_counterexample :
    demoPackage.SplitLeasePath "" = Except.error Error.MalformedPath
    ∧ (Services.NewLease demoPackage demoServices "key1" "" demoAmbient emptyStore).1
        = ("", some (Error.wrapped Error.MalformedPath "could not parse lease path"))
    ∧ (Services.NewLease demoPackage demoServices "key1" "" demoAmbient emptyStore).1.2
        ≠ some Error.MalformedPath := by
  refine ⟨by rfl, by rfl, by decide⟩

/-- C6, amended.  When `SplitLeasePath` fails with `err`, `Services.NewLease`
returns the empty token string and `errors.Wrap(err, "could not parse lease
path")`: a value different from `err` whose cause is the cause of `err`.  The
ambient state and the store state are the ones it was given, also over the
logging store: no access check, no token, no store call. -/
theorem NewLease_malformed_path {σ ρ : Type} (pkg : Package ρ) (s : Services σ ρ)
    (keyID leasePath : String) (r : ρ) (st : σ) (log : List StoreCall) (err : Error)
    (hsplit : pkg.SplitLeasePath leasePath = Except.error err) :
    Services.NewLease pkg s keyID leasePath r st
      = (("", some (errors.Wrap err "could not parse lease path")), r, st)
    ∧ Services.NewLease pkg s.logged keyID leasePath r (st, log)
      = (("", some (errors.Wrap err "could not parse lease path")), r, (st, log))
    ∧ errors.Wrap err "could not parse lease path" ≠ err
    ∧ errors.Cause (errors.Wrap err "could not parse lease path") = errors.Cause err := by
  refine ⟨?_, ?_, wrapped_ne_self err _, ?_⟩
  · simp [Services.NewLease, hsplit]
  · simp [Services.NewLease, hsplit]
  · simp [errors.Wrap, errors.Cause]

/-- C6, amended, at the empty lease path. -/
theorem NewLease_malformed_path_witness :
    Services.NewLease demoPackage demoServices "key1" "" demoAmbient emptyStore
      = (("", some (errors.Wrap Error.MalformedPath "could not parse lease path")),
          demoAmbient, emptyStore)
    ∧ Services.NewLease demoPackage demoServices.logged "key1" "" demoAmbient (emptyStore, [])
      = (("", some (errors.Wrap Error.MalformedPath "could not parse lease path")),
          demoAmbient, (emptyStore, []))
    ∧ errors.Wrap Error.MalformedPath "could not parse lease path" ≠ Error.MalformedPath
    ∧ errors.Cause (errors.Wrap Error.MalformedPath "could not parse lease path")
        = errors.Cause Error.MalformedPath :=
  NewLease_malformed_path demoPackage demoServices "key1" "" demoAmbient emptyStore []
    Error.MalformedPath (by rfl)

/-- C7, as stated, fails: the store `demoStoreCollision` holds under
`test.repo.org/path/zzz` a lease of another key with the token string that is
minted next.  `Services.NewLease` for `test.repo.org/path/one` succeeds with that
token string, and the following `Services.GetLease`, made before the expiration,
succeeds with the key identifier and the lease path of the other lease. -/
theorem NewLease_then_GetLease_counterexample :
    Services.NewLease demoPackage demoServices "key1" "test.repo.org/path/one" demoAmbient
        demoStoreCollision = ((demoToken1, none), demoAmbient1, demoStoreCollision1)
    ∧ demoStoreCollision1.leases.get "test.repo.org/path/one"
        = some { KeyID := "key1", Token := demoLeaseToken1 }
    ∧ demoAmbient1.now < demoLeaseToken1.Expiration
    ∧ Services.GetLease demoPackage demoServices demoToken1 demoAmbient1 demoStoreCollision1
        = (Except.ok { KeyID := "other", LeasePath := "test.repo.org/path/zzz", TokenStr := "",
                       Expires := "1970-01-01 00:01:40 +0000 UTC" }, demoStoreCollision1) := by
  refine ⟨by rfl, by rfl, by decide, by rfl⟩

/-- C7, amended (acquire, then query).  Over the embedded store and the
idealised token service, when `Services.NewLease(keyID, leasePath)` succeeds
with the token string `t`, the store holds under `leasePath` the lease made of
`keyID` and of the minted token, whose token string is `t`; and if no lease the
store held before the call carries `t`, a `Services.GetLease(t)` made at any
time before the expiration of the token returns the key identifier, the lease
path and the rendered expiration, with an empty token string field, and leaves
the store as it is. -/
theorem NewLease_then_GetLease (split : String → Except Error (String × String))
    (render : Time → String) (access : AccessConfig Ambient) (config : Config)
    (keyID leasePath t : String) (r r1 : Ambient) (st st1 : StoreState)
    (hnew : Services.NewLease (idealPackage split render)
      (embeddedServices access split config) keyID leasePath r st = ((t, none), r1, st1)) :
    ∃ token : LeaseToken,
      token.TokenStr = t
      ∧ (∃ ra, idealNewLeaseToken leasePath (durationSeconds config.MaxLeaseTime) ra
          = (Except.ok token, r1))
      ∧ (EmbeddedLeaseDB split).GetLeaseForPath leasePath st1
          = Except.ok { KeyID := keyID, Token := token }
      ∧ ((∀ e ∈ st.leases.entries, e.2.Token.TokenStr ≠ t) →
          ∀ n : Time, n < token.Expiration →
            Services.GetLease (idealPackage split render)
                (embeddedServices access split config) t { r1 with now := n } st1
              = (Except.ok { KeyID := keyID, LeasePath := leasePath, TokenStr := "",
                             Expires := render token.Expiration }, st1)) := by
  obtain ⟨repoName, subPath, ra, token, _, _, hmint, hstore, htok⟩ :=
    NewLease_success_steps _ _ keyID leasePath t r r1 st st1 hnew
  have hmint1 : idealNewLeaseToken leasePath (durationSeconds config.MaxLeaseTime) ra
      = (Except.ok token, r1) := hmint
  have hstore1 : (EmbeddedLeaseDB split).NewLease keyID leasePath token st = (none, st1) :=
    hstore
  obtain ⟨m1, hsub, hst1⟩ := EmbeddedLeaseDB_NewLease_success split st st1 keyID leasePath
    token hstore1
  have hget : st1.leases.get leasePath = some { KeyID := keyID, Token := token } := by
    rw [hst1]
    exact GoMap.get_set_self _ _ _
  refine ⟨token, htok, ⟨ra, hmint1⟩, by simp [EmbeddedLeaseDB, hget], ?_⟩
  intro hfresh n hn
  have hfind : st1.leases.entries.find? (fun e => decide (e.2.Token.TokenStr = t))
      = some (leasePath, { KeyID := keyID, Token := token }) := by
    rw [hst1, ← htok]
    exact find_token_set m1 leasePath { KeyID := keyID, Token := token }
      (fun e he => by rw [htok]; exact hfresh e (hsub he))
  obtain ⟨p, hp⟩ := idealCheckToken_minted leasePath _ ra r1 token hmint1 n hn
  rw [htok] at hp
  simp only [Services.GetLease, embeddedServices, EmbeddedLeaseDB, idealPackage, hfind, hp]

/-- C7, amended, at the inputs of `TestEmbeddedLeaseDBCRUD`: `key1` leases
`test.repo.org/path/one` on the empty store and queries the lease with the
token it got. -/
theorem NewLease_then_GetLease_witness :
    (EmbeddedLeaseDB SplitLeasePath).GetLeaseForPath "test.repo.org/path/one" demoStore1
      = Except.ok { KeyID := "key1", Token := demoLeaseToken1 }
    ∧ Services.GetLease demoPackage demoServices demoToken1
        { demoAmbient1 with now := 50000000000 } demoStore1
      = (Except.ok { KeyID := "key1", LeasePath := "test.repo.org/path/one", TokenStr := "",
                     Expires := "1970-01-01 00:01:40 +0000 UTC" }, demoStore1) := by
  obtain ⟨token, _, _, hpath, hget⟩ :=
    NewLease_then_GetLease SplitLeasePath timeStringUTC demoServices.Access
      demoServices.Config "key1" "test.repo.org/path/one" demoToken1 demoAmbient demoAmbient1
      emptyStore demoStore1 (by rfl)
  have hstored : (EmbeddedLeaseDB SplitLeasePath).GetLeaseForPath "test.repo.org/path/one"
      demoStore1 = Except.ok { KeyID := "key1", Token := demoLeaseToken1 } := by rfl
  have htoken : token = demoLeaseToken1 := by
    rw [hstored] at hpath
    exact (congrArg Lease.Token (Except.ok.inj hpath)).symm
  subst htoken
  refine ⟨hstored, ?_⟩
  exact (hget (by intro e he; simp [emptyStore, GoMap.empty] at he) 50000000000
    (by decide)).trans (by rfl)

/-- C8 (acquire, list, cancel).  Over the embedded store and the idealised
token service, starting from an empty store: when
`Services.NewLease(keyID, leasePath)` succeeds with the token string `t`, the
store holds exactly the lease made of `keyID` and of the minted token, whose
token string is `t`; a `Services.GetLeases` made before the expiration of the
token returns a map with exactly one entry, keyed `leasePath`, with that key
identifier and token string; a `Services.CancelLease(t)` made before the
expiration succeeds and leaves the store empty; and `Services.GetLeases` then
returns the empty map. -/
theorem NewLease_GetLeases_CancelLease (split : String → Except Error (String × String))
    (render : Time → String) (access : AccessConfig Ambient) (config : Config)
    (keyID leasePath t : String) (clock : Time) (r r1 : Ambient) (st1 : StoreState)
    (hnew : Services.NewLease (idealPackage split render)
      (embeddedServices access split config) keyID leasePath r
      { leases := GoMap.empty, clock := clock } = ((t, none), r1, st1)) :
    ∃ token : LeaseToken,
      token.TokenStr = t
      ∧ st1 = { leases := GoMap.empty.set leasePath { KeyID := keyID, Token := token },
                clock := clock }
      ∧ ∀ n1 n2 n3 : Time, n1 < token.Expiration → n2 < token.Expiration →
          (∃ listed : GoMap LeaseReturn,
            Services.GetLeases (idealPackage split render)
                (embeddedServices access split config) { r1 with now := n1 } st1
              = Except.ok listed
            ∧ listed.entries
                = [(leasePath, { KeyID := keyID, LeasePath := "", TokenStr := t,
                                 Expires := render token.Expiration })]
            ∧ listed.len = 1)
          ∧ Services.CancelLease (idealPackage split render)
                (embeddedServices access split config) t { r1 with now := n2 } st1
              = (none, { leases := GoMap.empty, clock := clock })
          ∧ Services.GetLeases (idealPackage split render)
                (embeddedServices access split config) { r1 with now := n3 }
                { leases := GoMap.empty, clock := clock }
              = Except.ok GoMap.empty := by
  obtain ⟨repoName, subPath, ra, token, _, _, hmint, hstore, htok⟩ :=
    NewLease_success_steps _ _ keyID leasePath t r r1 _ st1 hnew
  have hmint1 : idealNewLeaseToken leasePath (durationSeconds config.MaxLeaseTime) ra
      = (Except.ok token, r1) := hmint
  have hstore1 : (EmbeddedLeaseDB split).NewLease keyID leasePath token
      { leases := GoMap.empty, clock := clock } = (none, st1) := hstore
  have hst1 : st1 = { leases := GoMap.empty.set leasePath { KeyID := keyID, Token := token },
                      clock := clock } := by
    simp only [EmbeddedLeaseDB] at hstore1
    cases hs : split leasePath with
    | error e => simp [hs] at hstore1
    | ok p =>
      obtain ⟨repo, sub⟩ := p
      simp only [hs, GoMap.empty, conflictScan, Prod.mk.injEq, true_and] at hstore1
      exact hstore1.symm
  refine ⟨token, htok, hst1, ?_⟩
  intro n1 n2 n3 hn1 hn2
  obtain ⟨p1, hp1⟩ := idealCheckToken_minted leasePath _ ra r1 token hmint1 n1 hn1
  obtain ⟨p2, hp2⟩ := idealCheckToken_minted leasePath _ ra r1 token hmint1 n2 hn2
  subst hst1
  subst htok
  refine ⟨⟨GoMap.empty.set leasePath
      { KeyID := keyID, LeasePath := "", TokenStr := token.TokenStr,
        Expires := render token.Expiration }, ?_, rfl, rfl⟩, ?_, ?_⟩
  · simp [Services.GetLeases, embeddedServices, EmbeddedLeaseDB, idealPackage, GoMap.set,
      GoMap.empty, Services.getLeasesStep, hp1]
  · have hretain : (GoMap.empty.set leasePath ({ KeyID := keyID, Token := token } : Lease)).retain
        (fun e => decide (e.2.Token.TokenStr ≠ token.TokenStr)) = GoMap.empty := by
      apply GoMap.ext_entries
      simp [GoMap.retain, GoMap.set, GoMap.empty]
    simp [Services.CancelLease, embeddedServices, EmbeddedLeaseDB, idealPackage, GoMap.set,
      GoMap.empty, hp2] at hretain ⊢
    exact hretain
  · simp [Services.GetLeases, embeddedServices, EmbeddedLeaseDB, GoMap.empty]

/-- C8 at the inputs of `TestEmbeddedLeaseDBCRUD`: `key1` leases
`test.repo.org/path/one` on the empty store, lists the leases, cancels its
lease and lists again. -/
theorem NewLease_GetLeases_CancelLease_witness :
    (∃ listed : GoMap LeaseReturn,
      Services.GetLeases demoPackage demoServices { demoAmbient1 with now := 10000000000 }
          demoStore1 = Except.ok listed
      ∧ listed.entries
          = [("test.repo.org/path/one",
              { KeyID := "key1", LeasePath := "", TokenStr := demoToken1,
                Expires := "1970-01-01 00:01:40 +0000 UTC" })]
      ∧ listed.len = 1)
    ∧ Services.CancelLease demoPackage demoServices demoToken1
          { demoAmbient1 with now := 20000000000 } demoStore1
        = (none, { leases := GoMap.empty, clock := 0 })
    ∧ Services.GetLeases demoPackage demoServices { demoAmbient1 with now := 30000000000 }
          { leases := GoMap.empty, clock := 0 }
        = Except.ok GoMap.empty := by
  obtain ⟨token, _, hst, hrun⟩ :=
    NewLease_GetLeases_CancelLease SplitLeasePath timeStringUTC demoServices.Access
      demoServices.Config "key1" "test.repo.org/path/one" demoToken1 0 demoAmbient
      demoAmbient1 demoStore1 (by rfl)
  have htoken : token = demoLeaseToken1 := by
    have h1 : demoStore1.leases.get "test.repo.org/path/one"
        = some { KeyID := "key1", Token := demoLeaseToken1 } := by rfl
    rw [hst, GoMap.get_set_self] at h1
    exact congrArg Lease.Token (Option.some.inj h1)
  subst htoken
  obtain ⟨⟨listed, h1, h2, h3⟩, h4, h5⟩ :=
    hrun 10000000000 20000000000 30000000000 (by decide) (by decide)
  exact ⟨⟨listed, h1, h2.trans (by rfl), h3⟩, h4, h5⟩

/-! ## The embedded store: conflicts and replacement -/

/-- C9 (path exclusion).  If the store holds at `Q` a lease that is not expired,
and `P` lies in the same repository with a subpath that is a prefix of the
subpath of `Q` or has it as a prefix, the store's `NewLease` for `P` fails with a
`PathBusy` error and returns the store as it was. -/
theorem EmbeddedLeaseDB_NewLease_path_busy (split : String → Except Error (String × String))
    (st : StoreState) (keyID P : String) (token : LeaseToken) (Q : String) (lq : Lease)
    (repo subP subQ : String)
    (hQ : st.leases.get Q = some lq) (hlive : lq.expired st.clock = false)
    (hP : split P = Except.ok (repo, subP)) (hQs : split Q = Except.ok (repo, subQ))
    (hov : IsPrefix subP subQ = true ∨ IsPrefix subQ subP = true) :
    ∃ existing,
      (EmbeddedLeaseDB split).NewLease keyID P token st
        = (some (Error.PathBusy existing), st)
      ∧ (Error.PathBusy existing).isPathBusy = true := by
  obtain ⟨existing, h⟩ := conflictScan_busy split st.clock P repo subP st.leases.entries
    st.leases (Q, lq) subQ (GoMap.mem_of_get _ _ _ hQ) hQs hlive hov.symm
  exact ⟨existing, by simp [EmbeddedLeaseDB, hP, h], rfl⟩

/-- C9 at the inputs of `TestEmbeddedLeaseDBConflicts`: with
`test.repo.org/path/one` leased, the parent `test.repo.org/path` and the child
`test.repo.org/path/one/below` are both refused. -/
theorem EmbeddedLeaseDB_NewLease_path_busy_witness :
    (∃ existing,
      (EmbeddedLeaseDB SplitLeasePath).NewLease "key1" "test.repo.org/path" demoLeaseToken3
          demoStore1 = (some (Error.PathBusy existing), demoStore1)
      ∧ (Error.PathBusy existing).isPathBusy = true)
    ∧ (∃ existing,
      (EmbeddedLeaseDB SplitLeasePath).NewLease "key1" "test.repo.org/path/one/below"
          demoLeaseToken3 demoStore1 = (some (Error.PathBusy existing), demoStore1)
      ∧ (Error.PathBusy existing).isPathBusy = true) :=
  ⟨EmbeddedLeaseDB_NewLease_path_busy SplitLeasePath demoStore1 "key1" "test.repo.org/path"
      demoLeaseToken3 "test.repo.org/path/one" { KeyID := "key1", Token := demoLeaseToken1 }
      "test.repo.org" "/path" "/path/one" (by rfl) (by rfl) (by rfl) (by rfl)
      (Or.inl (by rfl)),
   EmbeddedLeaseDB_NewLease_path_busy SplitLeasePath demoStore1 "key1"
      "test.repo.org/path/one/below" demoLeaseToken3 "test.repo.org/path/one"
      { KeyID := "key1", Token := demoLeaseToken1 }
      "test.repo.org" "/path/one/below" "/path/one" (by rfl) (by rfl) (by rfl) (by rfl)
      (Or.inr (by rfl))⟩

/-- C10 (expired replacement).  If the lease stored at `P` is expired and every
other lease of the repository of `P` has a subpath that neither is a prefix of
the subpath of `P` nor has it as a prefix, the store's `NewLease` for `P`
succeeds, and afterwards the store holds at `P` the new lease and no other
entry for `P`. -/
theorem EmbeddedLeaseDB_NewLease_replaces_expired
    (split : String → Except Error (String × String)) (st : StoreState)
    (keyID P : String) (newToken : LeaseToken) (old : Lease) (repo sub : String)
    (hP : split P = Except.ok (repo, sub))
    (hold : st.leases.get P = some old) (hexp : old.expired st.clock = true)
    (hothers : ∀ e ∈ st.leases.entries, e.1 ≠ P → ∀ sub1,
      split e.1 = Except.ok (repo, sub1) →
        IsPrefix sub1 sub = false ∧ IsPrefix sub sub1 = false) :
    ∃ st1,
      (EmbeddedLeaseDB split).NewLease keyID P newToken st = (none, st1)
      ∧ st1.leases.get P = some { KeyID := keyID, Token := newToken }
      ∧ (∀ l, (P, l) ∈ st1.leases.entries → l = { KeyID := keyID, Token := newToken })
      ∧ st1.clock = st.clock := by
  have hall : ∀ e ∈ st.leases.entries, ∀ sub1, split e.1 = Except.ok (repo, sub1) →
      e.2.expired st.clock = true ∨ (IsPrefix sub1 sub = false ∧ IsPrefix sub sub1 = false) := by
    intro e he sub1 hs
    by_cases hk : e.1 = P
    · left
      have h1 : st.leases.get e.1 = some e.2 := GoMap.get_of_mem _ _ _ he
      rw [hk, hold] at h1
      rw [← Option.some.inj h1]
      exact hexp
    · right
      exact hothers e he hk sub1 hs
  obtain ⟨m1, hm1⟩ := conflictScan_passes split st.clock P repo sub st.leases.entries
    st.leases hall
  refine ⟨{ st with leases := m1.set P { KeyID := keyID, Token := newToken } }, ?_, ?_, ?_, rfl⟩
  · simp [EmbeddedLeaseDB, hP, hm1]
  · exact GoMap.get_set_self _ _ _
  · intro l hl
    have h1 := GoMap.get_of_mem _ _ _ hl
    rw [GoMap.get_set_self] at h1
    exact (Option.some.inj h1).symm

/-- C10 at the inputs of `TestEmbeddedLeaseDBExpired`, next to a running lease
on a sibling path: the lease on `test.repo.org/path/one` has expired and is
replaced. -/
theorem EmbeddedLeaseDB_NewLease_replaces_expired_witness :
    ∃ st1,
      (EmbeddedLeaseDB SplitLeasePath).NewLease "key1" "test.repo.org/path/one"
          demoLeaseToken2 demoStoreLateTwo = (none, st1)
      ∧ st1.leases.get "test.repo.org/path/one"
          = some { KeyID := "key1", Token := demoLeaseToken2 }
      ∧ (∀ l, ("test.repo.org/path/one", l) ∈ st1.leases.entries →
          l = { KeyID := "key1", Token := demoLeaseToken2 })
      ∧ st1.clock = demoStoreLateTwo.clock :=
  EmbeddedLeaseDB_NewLease_replaces_expired SplitLeasePath demoStoreLateTwo "key1"
    "test.repo.org/path/one" demoLeaseToken2 { KeyID := "key1", Token := demoLeaseToken1 }
    "test.repo.org" "/path/one" (by rfl) (by rfl) (by rfl)
    (by
      intro e he hne sub1 hs
      have hent : demoStoreLateTwo.leases.entries
          = [("test.repo.org/path/one", { KeyID := "key1", Token := demoLeaseToken1 }),
             ("test.repo.org/path/two", { KeyID := "key1", Token := demoLeaseToken4 })] := by
        rfl
      rw [hent] at he
      simp only [List.mem_cons, List.mem_singleton, List.not_mem_nil, or_false] at he
      rcases he with he | he
      · subst he
        exact absurd rfl hne
      · subst he
        have hsplit : SplitLeasePath "test.repo.org/path/two"
            = Except.ok ("test.repo.org", "/path/two") := by rfl
        rw [hsplit] at hs
        have hsub : sub1 = "/path/two" := by
          have := Except.ok.inj hs
          exact (congrArg Prod.snd this).symm
        subst hsub
        exact ⟨by rfl, by rfl⟩)

end Gateway
